import Mathlib

/-!
Verification of the `gary.potential` C/Cython potential-evaluation engine
(repository: adrn/Gala, early "gary" codebase).

The development shallowly embeds, over the real numbers:
  * the per-model kernels implemented in the Cython source embedded in
    `docs/index.rst` (`_HernquistPotential`, `_JaffePotential`,
    `_MiyamotoNagaiPotential`, `_LeeSutoNFWPotential`,
    `_LogarithmicPotential`, `_Pal5AxisymmetricNFWPotential`);
  * the composite dispatcher (`CPotential` struct of
    `gary/potential/builtin/cybuiltin.pyx`), whose C implementation
    (`src/cpotential.h` / `src/_cbuiltin.h`) is not part of the source
    tree and is therefore modelled from the spec where needed;
  * the finite-difference derivative module (`_d_dr`, `_d2_dr2`,
    `_mass_enclosed` of `potential/cpotential.pyx`), likewise modelled
    from the spec (only the `.pxd` declarations are in the tree).

Machine doubles are idealised as real numbers; division by zero follows
Lean's total-function convention (`x / 0 = 0`).
-/

noncomputable section

open scoped Classical

/-! ## Density sentinel

Models lacking an analytic density bind their density slot to
`nan_density`, which returns the IEEE NaN sentinel.  We model the double
returned by a density query as either an ordinary real or the NaN
sentinel; NaN is absorbing under addition, as in IEEE arithmetic. -/

inductive DVal where
  | val : ℝ → DVal
  | nan : DVal

def DVal.add : DVal → DVal → DVal
  | DVal.val a, DVal.val b => DVal.val (a + b)
  | _, _ => DVal.nan

/-- Modelled from the spec: `nan_density` (declared in `src/_cbuiltin.h`,
implementation not in the source tree) returns NaN for every time,
parameter buffer and position. -/
def nan_density : ℝ → List ℝ → ℝ → ℝ → ℝ → DVal := fun _ _ _ _ _ => DVal.nan

/-! ## Composite dispatcher

`cybuiltin.pyx` declares the C struct `CPotential`: up to
`MAX_N_COMPONENTS = 16` components, each a (value, gradient, density)
function triple plus a flat parameter buffer.  A kernel's value/density
functions take `(t, pars, q)`; its gradient contribution is the 3-vector
the C gradient function adds into the output buffer. -/

def MAX_N_COMPONENTS : ℕ := 16

structure KernelComponent where
  value : ℝ → List ℝ → ℝ → ℝ → ℝ → ℝ
  gradient : ℝ → List ℝ → ℝ → ℝ → ℝ → Fin 3 → ℝ
  density : ℝ → List ℝ → ℝ → ℝ → ℝ → DVal

structure CPotential where
  components : List (KernelComponent × List ℝ)

/-- Modelled from the spec: `c_value` (declared in `src/cpotential.h`,
implementation not in the source tree) accumulates the value of every
registered component at the query point, iterating in registration
order. -/
def c_value (p : CPotential) (t x y z : ℝ) : ℝ :=
  p.components.foldl (fun acc c => acc + c.1.value t c.2 x y z) 0

/-- Modelled from the spec: `c_density` (declared in `src/cpotential.h`,
implementation not in the source tree) accumulates the density of every
registered component; NaN contributions propagate as in IEEE addition. -/
def c_density (p : CPotential) (t x y z : ℝ) : DVal :=
  p.components.foldl (fun acc c => DVal.add acc (c.1.density t c.2 x y z)) (DVal.val 0)

/-- Modelled from the spec: component registration is a construction-time
operation that fails with a capacity-exceeded condition when the number
of components would exceed `MAX_N_COMPONENTS`. -/
def mkComposite (ks : List (KernelComponent × List ℝ)) : Except String CPotential :=
  if ks.length ≤ MAX_N_COMPONENTS then Except.ok ⟨ks⟩
  else Except.error "capacity exceeded: too many potential components"

/-! Generic fold-to-sum lemma used for the composite value. -/

theorem foldl_add_eq_sum (f : (KernelComponent × List ℝ) → ℝ)
    (ks : List (KernelComponent × List ℝ)) (a : ℝ) :
    ks.foldl (fun acc c => acc + f c) a = a + (ks.map f).sum := by
  induction ks generalizing a with
  | nil => simp
  | cons c rest ih => simp [List.foldl_cons, ih, add_assoc]

/-- **C2.** The composite value at any point is the sum of the registered
kernels' individual values there, and any reordering (permutation) of the
registration list yields the same composite value: the contributions
commute. -/
theorem composite_value_is_commutative_sum
    (ks : List (KernelComponent × List ℝ)) (h : ks.length ≤ 16) (t x y z : ℝ) :
    c_value ⟨ks⟩ t x y z = (ks.map (fun c => c.1.value t c.2 x y z)).sum ∧
    ∀ ks' : List (KernelComponent × List ℝ), ks.Perm ks' →
      c_value ⟨ks⟩ t x y z = c_value ⟨ks'⟩ t x y z := by
  constructor
  · simpa using foldl_add_eq_sum (fun c => c.1.value t c.2 x y z) ks 0
  · intro ks' hperm
    have h1 := foldl_add_eq_sum (fun c => c.1.value t c.2 x y z) ks 0
    have h2 := foldl_add_eq_sum (fun c => c.1.value t c.2 x y z) ks' 0
    have hsum : (ks.map (fun c => c.1.value t c.2 x y z)).sum
        = (ks'.map (fun c => c.1.value t c.2 x y z)).sum :=
      (hperm.map _).sum_eq
    simp [c_value, h1, h2, hsum]

/-- A trivial kernel used to instantiate capacity and commutativity
statements on concrete inputs. -/
def constKernel (v : ℝ) : KernelComponent :=
  ⟨fun _ _ _ _ _ => v, fun _ _ _ _ _ _ => 0, nan_density⟩

/-- Witness for C2: a two-component composite, evaluated both in
registration order and swapped. -/
theorem composite_value_is_commutative_sum_witness :
    c_value ⟨[(constKernel 1, []), (constKernel 2, [])]⟩ 0 1 2 3
      = ([(constKernel 1, ([] : List ℝ)), (constKernel 2, [])].map
          (fun c => c.1.value 0 c.2 1 2 3)).sum ∧
    c_value ⟨[(constKernel 1, []), (constKernel 2, [])]⟩ 0 1 2 3
      = c_value ⟨[(constKernel 2, []), (constKernel 1, [])]⟩ 0 1 2 3 := by
  have h := composite_value_is_commutative_sum
    [(constKernel 1, []), (constKernel 2, [])] (by simp) 0 1 2 3
  exact ⟨h.1, h.2 _ (List.Perm.swap _ _ _)⟩

/-- **C3.** Registering 17 components fails with a capacity-exceeded
condition at construction time; registering exactly 16 succeeds; and any
successfully constructed composite has at most `MAX_N_COMPONENTS = 16`
components. -/
theorem composite_capacity
    (ks17 ks16 : List (KernelComponent × List ℝ))
    (h17 : ks17.length = 17) (h16 : ks16.length = 16) :
    (∃ e, mkComposite ks17 = Except.error e) ∧
    mkComposite ks16 = Except.ok ⟨ks16⟩ ∧
    ∀ (ks : List (KernelComponent × List ℝ)) (p : CPotential),
      mkComposite ks = Except.ok p → p.components.length ≤ MAX_N_COMPONENTS := by
  refine ⟨?_, ?_, ?_⟩
  · refine ⟨"capacity exceeded: too many potential components", ?_⟩
    simp [mkComposite, h17, MAX_N_COMPONENTS]
  · simp [mkComposite, h16, MAX_N_COMPONENTS]
  · intro ks p hok
    by_cases hle : ks.length ≤ MAX_N_COMPONENTS
    · simp only [mkComposite, if_pos hle] at hok
      cases hok
      exact hle
    · simp [mkComposite, if_neg hle] at hok

/-- Witness for C3: concrete lists of 17 and 16 components. -/
theorem composite_capacity_witness :
    (∃ e, mkComposite (List.replicate 17 (constKernel 0, [])) = Except.error e) ∧
    mkComposite (List.replicate 16 (constKernel 0, []))
      = Except.ok ⟨List.replicate 16 (constKernel 0, [])⟩ := by
  have h := composite_capacity
    (List.replicate 17 (constKernel 0, []))
    (List.replicate 16 (constKernel 0, []))
    (by simp) (by simp)
  exact ⟨h.1, h.2.1⟩

/-! ## Point-mass (Kepler) and Hénon-Heiles kernels

`cybuiltin.pyx` binds `kepler_value` / `kepler_gradient` / `nan_density`
(and the Hénon-Heiles counterparts) into single-component `CPotential`
structs; the C bodies live in `src/_cbuiltin.h`, which is not in the
source tree, so the closed forms are modelled from the documented
formulas (`Φ(r) = -Gm/r`; `Φ(x,y) = ½(x² + y² + 2x²y - ⅔y³)`).
Parameter buffer layout: `pars = [G, m]` for Kepler, `pars = [G]` for
Hénon-Heiles. -/

/-- Modelled from the spec: `kepler_value` (declared in
`src/_cbuiltin.h`, implementation not in the source tree),
`Φ(q) = -G·m/|q|`. -/
def kepler_value (_t : ℝ) (pars : List ℝ) (x y z : ℝ) : ℝ :=
  -(pars.getD 0 0 * pars.getD 1 0) / Real.sqrt (x*x + y*y + z*z)

/-- Modelled from the spec: the 3-vector `kepler_gradient` (declared in
`src/_cbuiltin.h`) adds into the output buffer, `∇Φ = G·m·q/|q|³`. -/
def kepler_gradient (_t : ℝ) (pars : List ℝ) (x y z : ℝ) : Fin 3 → ℝ :=
  let GM := pars.getD 0 0 * pars.getD 1 0
  let r := Real.sqrt (x*x + y*y + z*z);
  ![GM * x / (r*r*r), GM * y / (r*r*r), GM * z / (r*r*r)]

/-- Modelled from the spec: `henon_heiles_value`,
`Φ(x,y) = ½(x² + y² + 2x²y - ⅔y³)` (docstring in `cybuiltin.pyx`). -/
def henon_heiles_value (_t : ℝ) (_pars : List ℝ) (x y _z : ℝ) : ℝ :=
  (x*x + y*y + 2*x*x*y - 2/3*y*y*y) / 2

/-- Modelled from the spec: the contribution `henon_heiles_gradient`
adds into the output buffer (exact derivative of the documented value). -/
def henon_heiles_gradient (_t : ℝ) (_pars : List ℝ) (x y _z : ℝ) : Fin 3 → ℝ :=
  ![x + 2*x*y, y + x*x - y*y, 0]

/-- The Kepler kernel record: value/gradient/density slots as bound in
`KeplerPotentialWrapper.__init__` (`cybuiltin.pyx`, lines 159–175). -/
def keplerKernel : KernelComponent :=
  ⟨kepler_value, kepler_gradient, nan_density⟩

/-- `KeplerPotentialWrapper.__init__`: a single-component composite whose
parameter buffer is `[G] ++ parameters` with `parameters = [m]`. -/
def keplerWrapper (G : ℝ) (parameters : List ℝ) : CPotential :=
  ⟨[(keplerKernel, G :: parameters)]⟩

/-- The Hénon-Heiles kernel record, as bound in
`HenonHeilesWrapper.__init__` (`cybuiltin.pyx`, lines 116–131). -/
def henonHeilesKernel : KernelComponent :=
  ⟨henon_heiles_value, henon_heiles_gradient, nan_density⟩

/-- `HenonHeilesWrapper.__init__`: single-component composite with
parameter buffer `[G]`. -/
def henonHeilesWrapper (G : ℝ) : CPotential :=
  ⟨[(henonHeilesKernel, [G])]⟩

/-- **C4.** With `G·M = 1` (here `G = 1`, `m = 1`), the point-mass
composite evaluated at `q = (1, -1, 0)` has value `-1/√2` and gradient
contribution `(1/(2√2), -1/(2√2), 0)`, consistent with `Φ = -GM/r`. -/
theorem kepler_concrete_point :
    c_value (keplerWrapper 1 [1]) 0 1 (-1) 0 = -(1 / Real.sqrt 2) ∧
    kepler_gradient 0 [1, 1] 1 (-1) 0 0 = 1 / (2 * Real.sqrt 2) ∧
    kepler_gradient 0 [1, 1] 1 (-1) 0 1 = -(1 / (2 * Real.sqrt 2)) ∧
    kepler_gradient 0 [1, 1] 1 (-1) 0 2 = 0 := by
  have harg : (1*1 + (-1)*(-1) + 0*0 : ℝ) = 2 := by norm_num
  have hcube : Real.sqrt 2 * Real.sqrt 2 * Real.sqrt 2 = 2 * Real.sqrt 2 := by
    rw [Real.mul_self_sqrt (by norm_num : (0:ℝ) ≤ 2)]
  refine ⟨?_, ?_, ?_, ?_⟩
  · simp [c_value, keplerWrapper, keplerKernel, kepler_value, harg]
    rw [neg_div, one_div]
    norm_num
  · simp only [kepler_gradient, harg]
    simp [hcube]
  · simp only [kepler_gradient, harg]
    simp [hcube]
    ring
  · simp [kepler_gradient]

/-- **C9.** Composites whose kernels lack an analytic density (the
point-mass/Kepler and Hénon-Heiles wrappers bind the density slot to
`nan_density`) answer every density query, at every position and time,
with the NaN sentinel — an ordinary `DVal` return value, not an error
(the query's type is `DVal`, not `Except`). -/
theorem density_nan_for_undefined_models (G t x y z : ℝ) (pars : List ℝ) :
    c_density (keplerWrapper G pars) t x y z = DVal.nan ∧
    c_density (henonHeilesWrapper G) t x y z = DVal.nan := by
  constructor
  · simp [c_density, keplerWrapper, keplerKernel, nan_density, DVal.add]
  · simp [c_density, henonHeilesWrapper, henonHeilesKernel, nan_density, DVal.add]

/-! ## Finite-difference derivative module

Only the `.pxd` declarations of `_CPotential.d_dr`, `_CPotential.d2_dr2`
and `_CPotential.mass_enclosed` are in the source tree
(`potential/cpotential.pxd`); the bodies are modelled from the spec
(§4.4): central differences of the composite value along the radial unit
vector `r̂ = q/|q|`, with a strictly positive step `ε` enforced as an
invalid-argument condition, and
`mass_enclosed(q) ≈ r²/G · d_dr(q, ε)` with default step `ε = 1e-3·r`. -/

/-- Modelled from the spec: the raw central difference
`(Φ(q+ε·r̂) - Φ(q-ε·r̂)) / (2ε)` of the composite value along the radial
direction. -/
def c_d_dr (p : CPotential) (t x y z ε : ℝ) : ℝ :=
  let r := Real.sqrt (x*x + y*y + z*z)
  (c_value p t (x + ε*x/r) (y + ε*y/r) (z + ε*z/r)
    - c_value p t (x - ε*x/r) (y - ε*y/r) (z - ε*z/r)) / (2*ε)

/-- Modelled from the spec: the raw second central difference
`(Φ(q+ε·r̂) - 2Φ(q) + Φ(q-ε·r̂)) / ε²`. -/
def c_d2_dr2 (p : CPotential) (t x y z ε : ℝ) : ℝ :=
  let r := Real.sqrt (x*x + y*y + z*z)
  (c_value p t (x + ε*x/r) (y + ε*y/r) (z + ε*z/r) - 2 * c_value p t x y z
    + c_value p t (x - ε*x/r) (y - ε*y/r) (z - ε*z/r)) / (ε*ε)

/-- Modelled from the spec: `d_dr` validates the step eagerly at call
entry — a non-positive `ε` is an invalid-argument condition (and, being
pure, the call performs no partial mutation). -/
def d_dr (p : CPotential) (t x y z ε : ℝ) : Except String ℝ :=
  if ε ≤ 0 then Except.error "invalid argument: step size must be positive"
  else Except.ok (c_d_dr p t x y z ε)

/-- Modelled from the spec: `d2_dr2` with the same step validation. -/
def d2_dr2 (p : CPotential) (t x y z ε : ℝ) : Except String ℝ :=
  if ε ≤ 0 then Except.error "invalid argument: step size must be positive"
  else Except.ok (c_d2_dr2 p t x y z ε)

/-- Modelled from the spec: `mass_enclosed` estimates
`M(<r) ≈ r²/G · dΦ/dr` using the central difference at radius `r = |q|`
with the default step `ε = 1e-3·r`. -/
def mass_enclosed (p : CPotential) (t x y z G : ℝ) : ℝ :=
  let r := Real.sqrt (x*x + y*y + z*z)
  r^2 / G * c_d_dr p t x y z (1e-3 * r)

/-- **C7.** For every composite and query point, `d_dr` and `d2_dr2`
reject a step `ε ≤ 0` with an invalid-argument error (no partial
mutation is possible: both are pure), and accept every strictly positive
`ε`. -/
theorem step_size_validation (p : CPotential) (t x y z ε : ℝ) :
    (ε ≤ 0 → (∃ e, d_dr p t x y z ε = Except.error e) ∧
      (∃ e, d2_dr2 p t x y z ε = Except.error e)) ∧
    (0 < ε → d_dr p t x y z ε = Except.ok (c_d_dr p t x y z ε) ∧
      d2_dr2 p t x y z ε = Except.ok (c_d2_dr2 p t x y z ε)) := by
  constructor
  · intro hn
    exact ⟨⟨"invalid argument: step size must be positive", by simp [d_dr, if_pos hn]⟩,
      ⟨"invalid argument: step size must be positive", by simp [d2_dr2, if_pos hn]⟩⟩
  · intro hp
    have hn : ¬ ε ≤ 0 := not_le.mpr hp
    exact ⟨by simp [d_dr, if_neg hn], by simp [d2_dr2, if_neg hn]⟩

/-- Witness for C7: the Kepler composite with `ε = -1` (rejected) and
`ε = 1` (accepted). -/
theorem step_size_validation_witness :
    (∃ e, d_dr (keplerWrapper 1 [1]) 0 1 2 3 (-1) = Except.error e) ∧
    d_dr (keplerWrapper 1 [1]) 0 1 2 3 1
      = Except.ok (c_d_dr (keplerWrapper 1 [1]) 0 1 2 3 1) := by
  refine ⟨((step_size_validation (keplerWrapper 1 [1]) 0 1 2 3 (-1)).1 (by norm_num)).1,
    ((step_size_validation (keplerWrapper 1 [1]) 0 1 2 3 1).2 (by norm_num)).1⟩

/-! Helper facts for the `mass_enclosed` computation on the point-mass
composite: scaling a position by a nonnegative factor scales its
Euclidean norm. -/

theorem sqrt_scaled (c x y z : ℝ) (hc : 0 ≤ c) :
    Real.sqrt ((c*x)*(c*x) + (c*y)*(c*y) + (c*z)*(c*z))
      = c * Real.sqrt (x*x + y*y + z*z) := by
  have h1 : (c*x)*(c*x) + (c*y)*(c*y) + (c*z)*(c*z) = c^2 * (x*x + y*y + z*z) := by
    ring
  rw [h1, Real.sqrt_mul (sq_nonneg c), Real.sqrt_sq hc]

/-- **C6.** On a composite containing only the point-mass kernel of mass
`M`, `mass_enclosed` (central difference with default step
`ε = 1e-3·r`) returns exactly `M·10⁶/999999` at every point with
`r > 0`: a value independent of `r` and within relative tolerance
`2·10⁻⁶` of `M`. -/
theorem mass_enclosed_point_mass (G M t x y z : ℝ) (hG : G ≠ 0)
    (hr : 0 < Real.sqrt (x*x + y*y + z*z)) :
    mass_enclosed (keplerWrapper G [M]) t x y z G = M * 1000000 / 999999 ∧
    |mass_enclosed (keplerWrapper G [M]) t x y z G - M| ≤ 2e-6 * |M| := by
  set r := Real.sqrt (x*x + y*y + z*z) with hrdef
  have hrne : r ≠ 0 := ne_of_gt hr
  have h1e3 : (1e-3 : ℝ) = 1/1000 := by norm_num
  have hplus : x + ((1/1000)*r)*x/r = (1001/1000)*x := by
    field_simp
    ring
  have hminus : x - ((1/1000)*r)*x/r = (999/1000)*x := by
    field_simp
    ring
  have hplusy : y + ((1/1000)*r)*y/r = (1001/1000)*y := by
    field_simp
    ring
  have hminusy : y - ((1/1000)*r)*y/r = (999/1000)*y := by
    field_simp
    ring
  have hplusz : z + ((1/1000)*r)*z/r = (1001/1000)*z := by
    field_simp
    ring
  have hminusz : z - ((1/1000)*r)*z/r = (999/1000)*z := by
    field_simp
    ring
  have hnp : Real.sqrt (((1001/1000)*x)*((1001/1000)*x) + ((1001/1000)*y)*((1001/1000)*y)
      + ((1001/1000)*z)*((1001/1000)*z)) = (1001/1000) * r :=
    sqrt_scaled (1001/1000) x y z (by norm_num)
  have hnm : Real.sqrt (((999/1000)*x)*((999/1000)*x) + ((999/1000)*y)*((999/1000)*y)
      + ((999/1000)*z)*((999/1000)*z)) = (999/1000) * r :=
    sqrt_scaled (999/1000) x y z (by norm_num)
  have hmain : mass_enclosed (keplerWrapper G [M]) t x y z G = M * 1000000 / 999999 := by
    simp only [mass_enclosed, c_d_dr, c_value, keplerWrapper, keplerKernel,
      List.foldl_cons, List.foldl_nil, kepler_value, ← hrdef, zero_add,
      List.getD_cons_zero, List.getD_cons_succ, h1e3]
    rw [hplus, hplusy, hplusz, hminus, hminusy, hminusz, hnp, hnm]
    field_simp
    ring
  refine ⟨hmain, ?_⟩
  rw [hmain]
  have habs : M * 1000000 / 999999 - M = M / 999999 := by ring
  rw [habs, abs_div, abs_of_pos (by norm_num : (0:ℝ) < 999999),
    show (2e-6 : ℝ) = 2/1000000 from by norm_num]
  rw [div_le_iff₀ (by norm_num : (0:ℝ) < 999999)]
  nlinarith [abs_nonneg M]

/-- Witness for C6: point mass `G = 1`, `M = 1` at `q = (3,4,0)`
(so `r = 5`). -/
theorem mass_enclosed_point_mass_witness :
    mass_enclosed (keplerWrapper 1 [1]) 0 3 4 0 1 = 1 * 1000000 / 999999 ∧
    |mass_enclosed (keplerWrapper 1 [1]) 0 3 4 0 1 - 1| ≤ 2e-6 * |(1:ℝ)| :=
  mass_enclosed_point_mass 1 1 0 3 4 0 (by norm_num)
    (Real.sqrt_pos.mpr (by norm_num))

/-! ## Per-model Cython kernels (`docs/index.rst` embedded `.pyx`)

Each `_XxxPotential` extension class stores its parameters at
construction and exposes `_value(r, k)` and `_gradient(r, grad, k)`; the
gradient *adds* its contribution into row `k` of the output buffer.  We
embed each class as a structure of parameters, a `value` function of one
position, a `gradContrib` 3-vector (the quantity the source adds), and a
`gradient` buffer transformer `grad ↦ grad'` acting on row `k` of an
`ℕ → Fin 3 → ℝ` buffer. -/

/-- `_HernquistPotential.__init__`: stores `G`, `m`, `c`. -/
structure Hernquist where
  G : ℝ
  m : ℝ
  c : ℝ

def Hernquist.GM (s : Hernquist) : ℝ := s.G * s.m

/-- `_HernquistPotential._value`: `-GM/(R + c)` with `R = |q|`. -/
def Hernquist.value (s : Hernquist) (x y z : ℝ) : ℝ :=
  let R := Real.sqrt (x*x + y*y + z*z);
  -s.GM / (R + s.c)

/-- The 3-vector `_HernquistPotential._gradient` adds into row `k`:
`fac·q` with `fac = GM/((R+c)²·R)`. -/
def Hernquist.gradContrib (s : Hernquist) (x y z : ℝ) : Fin 3 → ℝ :=
  let R := Real.sqrt (x*x + y*y + z*z)
  let fac := s.GM / ((R + s.c) * (R + s.c) * R);
  ![fac*x, fac*y, fac*z]

/-- `_HernquistPotential._gradient`: `grad[k,i] += contrib[i]`. -/
def Hernquist.gradient (s : Hernquist) (x y z : ℝ)
    (grad : ℕ → Fin 3 → ℝ) (k : ℕ) : ℕ → Fin 3 → ℝ :=
  fun j i => if j = k then grad j i + s.gradContrib x y z i else grad j i

/-- `_JaffePotential.__init__`: stores `G`, `m`, `c`. -/
structure Jaffe where
  G : ℝ
  m : ℝ
  c : ℝ

def Jaffe.GM (s : Jaffe) : ℝ := s.G * s.m

/-- `_JaffePotential._value`: `GM/c · log(R/(R+c))`. -/
def Jaffe.value (s : Jaffe) (x y z : ℝ) : ℝ :=
  let R := Real.sqrt (x*x + y*y + z*z)
  s.GM / s.c * Real.log (R / (R + s.c))

/-- The 3-vector `_JaffePotential._gradient` adds into row `k`:
`fac·q` with `fac = GM/((R+c)·R²)`. -/
def Jaffe.gradContrib (s : Jaffe) (x y z : ℝ) : Fin 3 → ℝ :=
  let R := Real.sqrt (x*x + y*y + z*z)
  let fac := s.GM / ((R + s.c) * R * R);
  ![fac*x, fac*y, fac*z]

/-- `_JaffePotential._gradient`: `grad[k,i] += contrib[i]`. -/
def Jaffe.gradient (s : Jaffe) (x y z : ℝ)
    (grad : ℕ → Fin 3 → ℝ) (k : ℕ) : ℕ → Fin 3 → ℝ :=
  fun j i => if j = k then grad j i + s.gradContrib x y z i else grad j i

/-- `_MiyamotoNagaiPotential.__init__`: stores `G`, `m`, `a`, `b`
(and `b2 = b·b`). -/
structure MiyamotoNagai where
  G : ℝ
  m : ℝ
  a : ℝ
  b : ℝ

def MiyamotoNagai.GM (s : MiyamotoNagai) : ℝ := s.G * s.m

def MiyamotoNagai.b2 (s : MiyamotoNagai) : ℝ := s.b * s.b

/-- `_MiyamotoNagaiPotential._value`: `-GM/√(x² + y² + zd²)` with
`zd = a + √(z² + b²)`. -/
def MiyamotoNagai.value (s : MiyamotoNagai) (x y z : ℝ) : ℝ :=
  let zd := s.a + Real.sqrt (z*z + s.b2);
  -s.GM / Real.sqrt (x*x + y*y + zd*zd)

/-- The 3-vector `_MiyamotoNagaiPotential._gradient` adds into row `k`:
`fac = GM·(x² + y² + zd²)^(-3/2)`, z-component scaled by
`1 + a/√(z²+b²)`. -/
def MiyamotoNagai.gradContrib (s : MiyamotoNagai) (x y z : ℝ) : Fin 3 → ℝ :=
  let sqrtz := Real.sqrt (z*z + s.b2)
  let zd := s.a + sqrtz
  let fac := s.GM * (x*x + y*y + zd*zd) ^ (-(3/2) : ℝ);
  ![fac*x, fac*y, fac*z * (1 + s.a / sqrtz)]

/-- `_MiyamotoNagaiPotential._gradient`: `grad[k,i] += contrib[i]`. -/
def MiyamotoNagai.gradient (s : MiyamotoNagai) (x y z : ℝ)
    (grad : ℕ → Fin 3 → ℝ) (k : ℕ) : ℕ → Fin 3 → ℝ :=
  fun j i => if j = k then grad j i + s.gradContrib x y z i else grad j i

/-! ### Lee & Suto (2003) triaxial NFW kernel

`_LeeSutoNFWPotential.__init__` stores `v_h, r_h, a, b, c`, the rotation
matrix `R` (with `Rinv = R.T`), derives `e_b2 = 1-(b/a)²`,
`e_c2 = 1-(c/a)²`, sets the `spherical` fast-path flag when both vanish,
and hard-codes `G = 4.49975332435e-12` (kpc/Myr/Msun).  The rotation
matrix is laid out as nine scalars, row-major. -/

structure LeeSutoNFW where
  v_h : ℝ
  r_h : ℝ
  a : ℝ
  b : ℝ
  c : ℝ
  R11 : ℝ
  R12 : ℝ
  R13 : ℝ
  R21 : ℝ
  R22 : ℝ
  R23 : ℝ
  R31 : ℝ
  R32 : ℝ
  R33 : ℝ
  G : ℝ

/-- `_LeeSutoNFWPotential.__init__`: the constructor takes no `G`; it
hard-codes `G = 4.49975332435e-12` (kpc, Myr, Msun). -/
def mkLeeSutoNFW (v_h r_h a b c R11 R12 R13 R21 R22 R23 R31 R32 R33 : ℝ) :
    LeeSutoNFW :=
  ⟨v_h, r_h, a, b, c, R11, R12, R13, R21, R22, R23, R31, R32, R33,
    4.49975332435e-12⟩

def LeeSutoNFW.v_h2 (s : LeeSutoNFW) : ℝ := s.v_h * s.v_h

def LeeSutoNFW.r_h2 (s : LeeSutoNFW) : ℝ := s.r_h * s.r_h

def LeeSutoNFW.e_b2 (s : LeeSutoNFW) : ℝ := 1 - (s.b/s.a)^2

def LeeSutoNFW.e_c2 (s : LeeSutoNFW) : ℝ := 1 - (s.c/s.a)^2

/-- The `spherical` fast-path flag set at construction:
`1` iff `e_b2 = 0` and `e_c2 = 0`. -/
def LeeSutoNFW.spherical (s : LeeSutoNFW) : ℕ :=
  if s.e_b2 = 0 ∧ s.e_c2 = 0 then 1 else 0

/-- Row-major rotation into principal axes, x-row. -/
def LeeSutoNFW.rotx (s : LeeSutoNFW) (x y z : ℝ) : ℝ :=
  s.R11*x + s.R12*y + s.R13*z

/-- Row-major rotation into principal axes, y-row. -/
def LeeSutoNFW.roty (s : LeeSutoNFW) (x y z : ℝ) : ℝ :=
  s.R21*x + s.R22*y + s.R23*z

/-- Row-major rotation into principal axes, z-row. -/
def LeeSutoNFW.rotz (s : LeeSutoNFW) (x y z : ℝ) : ℝ :=
  s.R31*x + s.R32*y + s.R33*z

/-- `_LeeSutoNFWPotential._value_spherical`:
`-v_h² · log(1 + u)/u` with `u = |q|/r_h`. -/
def LeeSutoNFW.value_spherical (s : LeeSutoNFW) (x y z : ℝ) : ℝ :=
  let u := Real.sqrt (x*x + y*y + z*z) / s.r_h;
  -s.v_h2 * Real.log (1 + u) / u

/-- `_LeeSutoNFWPotential._value_triaxial` (transcribed verbatim from the
source expression). -/
def LeeSutoNFW.value_triaxial (s : LeeSutoNFW) (x y z : ℝ) : ℝ :=
  let X := s.rotx x y z;
  let Y := s.roty x y z;
  let Z := s.rotz x y z;
  let r := Real.sqrt (X*X + Y*Y + Z*Z);
  let u := r / s.r_h;
  s.v_h2*((s.e_b2/2 + s.e_c2/2)*((1/u - 1/u^3)*Real.log (u + 1) - 1
      + (2*u^2 - 3*u + 6)/(6*u^2))
    + (s.e_b2*Y^2/(2*r*r) + s.e_c2*Z*Z/(2*r*r))
      *((u*u - 3*u - 6)/(2*u*u*(u + 1)) + 3*Real.log (u + 1)/u/u/u)
    - Real.log (u + 1)/u)

/-- `_LeeSutoNFWPotential._value`: dispatch on the `spherical` flag. -/
def LeeSutoNFW.value (s : LeeSutoNFW) (x y z : ℝ) : ℝ :=
  if s.spherical = 1 then s.value_spherical x y z else s.value_triaxial x y z

/-- The 3-vector `_LeeSutoNFWPotential._gradient_spherical` adds into
row `k`. -/
def LeeSutoNFW.gradContrib_spherical (s : LeeSutoNFW) (x y z : ℝ) : Fin 3 → ℝ :=
  let u := Real.sqrt (x*x + y*y + z*z) / s.r_h;
  let fac := s.v_h2 / (u*u*u) / s.r_h2 * (Real.log (1+u) - u/(1+u));
  ![fac*x, fac*y, fac*z]

/-- The 3-vector `_LeeSutoNFWPotential._gradient_triaxial` adds into row
`k` (transcribed verbatim; `Rinv = R.T`, so the world-frame components
use the transposed entries). -/
def LeeSutoNFW.gradContrib_triaxial (s : LeeSutoNFW) (x y z : ℝ) : Fin 3 → ℝ :=
  let X := s.rotx x y z;
  let Y := s.roty x y z;
  let Z := s.rotz x y z;
  let r2 := X*X + Y*Y + Z*Z;
  let r := Real.sqrt r2;
  let r4 := r2*r2;
  let x0 := r + s.r_h;
  let x1 := x0*x0;
  let x2 := s.v_h2/(12*r4*r2*r*x1);
  let x10 := Real.log (x0/s.r_h);
  let x13 := r*3*s.r_h;
  let x15 := x13 - r2;
  let x16 := x15 + 6*s.r_h2;
  let x17 := 6*s.r_h*x0*(r*x16 - x0*x10*6*s.r_h2);
  let x20 := x0*r2;
  let x21 := 2*r*x0;
  let x7 := s.e_b2*Y*Y + s.e_c2*Z*Z;
  let x22 := -12*r4*r*s.r_h*x0 + 12*r4*s.r_h*x1*x10
    + 3*s.r_h*x7*(x16*r2 - 18*x1*x10*s.r_h2 + x20*(2*r - 3*s.r_h)
      + x21*(x15 + 9*s.r_h2))
    - x20*(s.e_b2 + s.e_c2)*(-6*r*s.r_h*(r2 - s.r_h2)
      + 6*s.r_h*x0*x10*(r2 - 3*s.r_h2) + x20*(-4*r + 3*s.r_h)
      + x21*(-x13 + 2*r2 + 6*s.r_h2));
  let ax := x2*X*(x17*x7 + x22);
  let ay := x2*Y*(x17*(x7 - r2*s.e_b2) + x22);
  let az := x2*Z*(x17*(x7 - r2*s.e_c2) + x22);
  ![s.R11*ax + s.R21*ay + s.R31*az,
    s.R12*ax + s.R22*ay + s.R32*az,
    s.R13*ax + s.R23*ay + s.R33*az]

/-- `_LeeSutoNFWPotential._gradient`: dispatch on the `spherical` flag. -/
def LeeSutoNFW.gradContrib (s : LeeSutoNFW) (x y z : ℝ) : Fin 3 → ℝ :=
  if s.spherical = 1 then s.gradContrib_spherical x y z
  else s.gradContrib_triaxial x y z

/-- `_LeeSutoNFWPotential._gradient`: `grad[k,i] += contrib[i]`. -/
def LeeSutoNFW.gradient (s : LeeSutoNFW) (x y z : ℝ)
    (grad : ℕ → Fin 3 → ℝ) (k : ℕ) : ℕ → Fin 3 → ℝ :=
  fun j i => if j = k then grad j i + s.gradContrib x y z i else grad j i

/-! ### Triaxial logarithmic kernel

`_LogarithmicPotential.__init__` stores `v_c, r_h, q1, q2, q3` and `R`,
computes `Rinv = np.linalg.inv(R)` (embedded below as the cofactor
formula for a 3×3 inverse), and hard-codes `G = 4.49975332435e-12`. -/

structure LogarithmicPot where
  v_c : ℝ
  r_h : ℝ
  q1 : ℝ
  q2 : ℝ
  q3 : ℝ
  R11 : ℝ
  R12 : ℝ
  R13 : ℝ
  R21 : ℝ
  R22 : ℝ
  R23 : ℝ
  R31 : ℝ
  R32 : ℝ
  R33 : ℝ
  G : ℝ

/-- `_LogarithmicPotential.__init__`: the constructor takes no `G`; it
hard-codes `G = 4.49975332435e-12` (kpc, Myr, Msun). -/
def mkLogarithmicPot (v_c r_h q1 q2 q3 R11 R12 R13 R21 R22 R23 R31 R32 R33 : ℝ) :
    LogarithmicPot :=
  ⟨v_c, r_h, q1, q2, q3, R11, R12, R13, R21, R22, R23, R31, R32, R33,
    4.49975332435e-12⟩

def LogarithmicPot.v_c2 (s : LogarithmicPot) : ℝ := s.v_c * s.v_c

def LogarithmicPot.r_h2 (s : LogarithmicPot) : ℝ := s.r_h * s.r_h

def LogarithmicPot.q1_2 (s : LogarithmicPot) : ℝ := s.q1 * s.q1

def LogarithmicPot.q2_2 (s : LogarithmicPot) : ℝ := s.q2 * s.q2

def LogarithmicPot.q3_2 (s : LogarithmicPot) : ℝ := s.q3 * s.q3

/-- Determinant of `R`, used by the 3×3 matrix inverse
(`np.linalg.inv`). -/
def LogarithmicPot.detR (s : LogarithmicPot) : ℝ :=
  s.R11*(s.R22*s.R33 - s.R23*s.R32) - s.R12*(s.R21*s.R33 - s.R23*s.R31)
    + s.R13*(s.R21*s.R32 - s.R22*s.R31)

def LogarithmicPot.Rinv11 (s : LogarithmicPot) : ℝ :=
  (s.R22*s.R33 - s.R23*s.R32) / s.detR

def LogarithmicPot.Rinv12 (s : LogarithmicPot) : ℝ :=
  (s.R13*s.R32 - s.R12*s.R33) / s.detR

def LogarithmicPot.Rinv13 (s : LogarithmicPot) : ℝ :=
  (s.R12*s.R23 - s.R13*s.R22) / s.detR

def LogarithmicPot.Rinv21 (s : LogarithmicPot) : ℝ :=
  (s.R23*s.R31 - s.R21*s.R33) / s.detR

def LogarithmicPot.Rinv22 (s : LogarithmicPot) : ℝ :=
  (s.R11*s.R33 - s.R13*s.R31) / s.detR

def LogarithmicPot.Rinv23 (s : LogarithmicPot) : ℝ :=
  (s.R13*s.R21 - s.R11*s.R23) / s.detR

def LogarithmicPot.Rinv31 (s : LogarithmicPot) : ℝ :=
  (s.R21*s.R32 - s.R22*s.R31) / s.detR

def LogarithmicPot.Rinv32 (s : LogarithmicPot) : ℝ :=
  (s.R12*s.R31 - s.R11*s.R32) / s.detR

def LogarithmicPot.Rinv33 (s : LogarithmicPot) : ℝ :=
  (s.R11*s.R22 - s.R12*s.R21) / s.detR

def LogarithmicPot.rotx (s : LogarithmicPot) (x y z : ℝ) : ℝ :=
  s.R11*x + s.R12*y + s.R13*z

def LogarithmicPot.roty (s : LogarithmicPot) (x y z : ℝ) : ℝ :=
  s.R21*x + s.R22*y + s.R23*z

def LogarithmicPot.rotz (s : LogarithmicPot) (x y z : ℝ) : ℝ :=
  s.R31*x + s.R32*y + s.R33*z

/-- `_LogarithmicPotential._value`:
`½·v_c² · log(X²/q1² + Y²/q2² + Z²/q3² + r_h²)` in principal axes. -/
def LogarithmicPot.value (s : LogarithmicPot) (x y z : ℝ) : ℝ :=
  let X := s.rotx x y z;
  let Y := s.roty x y z;
  let Z := s.rotz x y z;
  0.5*s.v_c2 * Real.log (X*X/s.q1_2 + Y*Y/s.q2_2 + Z*Z/s.q3_2 + s.r_h2)

/-- The 3-vector `_LogarithmicPotential._gradient` adds into row `k`
(principal-axis gradient rotated back through `Rinv`). -/
def LogarithmicPot.gradContrib (s : LogarithmicPot) (x y z : ℝ) : Fin 3 → ℝ :=
  let X := s.rotx x y z;
  let Y := s.roty x y z;
  let Z := s.rotz x y z;
  let fac := s.v_c2/(s.r_h2 + X*X/s.q1_2 + Y*Y/s.q2_2 + Z*Z/s.q3_2);
  let ax := fac*X/s.q1_2;
  let ay := fac*Y/s.q2_2;
  let az := fac*Z/s.q3_2;
  ![s.Rinv11*ax + s.Rinv12*ay + s.Rinv13*az,
    s.Rinv21*ax + s.Rinv22*ay + s.Rinv23*az,
    s.Rinv31*ax + s.Rinv32*ay + s.Rinv33*az]

/-- `_LogarithmicPotential._gradient`: `grad[k,i] += contrib[i]`. -/
def LogarithmicPot.gradient (s : LogarithmicPot) (x y z : ℝ)
    (grad : ℕ → Fin 3 → ℝ) (k : ℕ) : ℕ → Fin 3 → ℝ :=
  fun j i => if j = k then grad j i + s.gradContrib x y z i else grad j i

/-! ### Pal5 axisymmetric NFW kernel

`_Pal5AxisymmetricNFWPotential.__init__` stores `M, Rh, qz`, derives
`qz2 = qz·qz`, hard-codes `G = 4.49975332435e-12` and sets
`GM = G·M`. -/

structure Pal5NFW where
  M : ℝ
  Rh : ℝ
  qz : ℝ

def Pal5NFW.qz2 (s : Pal5NFW) : ℝ := s.qz * s.qz

def Pal5NFW.G (_s : Pal5NFW) : ℝ := 4.49975332435e-12

def Pal5NFW.GM (s : Pal5NFW) : ℝ := s.G * s.M

/-- `_Pal5AxisymmetricNFWPotential._value`: note that the source sets
`R = x² + y² + z²/qz²` — with **no square root** — and returns
`-GM/R · log(1 + R/Rh)`. -/
def Pal5NFW.value (s : Pal5NFW) (x y z : ℝ) : ℝ :=
  let R := x*x + y*y + z*z/s.qz2;
  -s.GM / R * Real.log (1 + R/s.Rh)

/-- The 3-vector `_Pal5AxisymmetricNFWPotential._gradient` adds into row
`k`: here the source sets `R = sqrt(x² + y² + z²/qz²)` (with the square
root), `dΦ/dR = GM/R² (log(1+R/Rh) - R/(R+Rh))`. -/
def Pal5NFW.gradContrib (s : Pal5NFW) (x y z : ℝ) : Fin 3 → ℝ :=
  let R := Real.sqrt (x*x + y*y + z*z/s.qz2);
  let dPhi_dR := s.GM / R / R * (Real.log (1 + R/s.Rh) - R/(R + s.Rh));
  ![dPhi_dR * x / R, dPhi_dR * y / R, dPhi_dR * z / (R * s.qz2)]

/-- `_Pal5AxisymmetricNFWPotential._gradient`: `grad[k,i] += contrib[i]`. -/
def Pal5NFW.gradient (s : Pal5NFW) (x y z : ℝ)
    (grad : ℕ → Fin 3 → ℝ) (k : ℕ) : ℕ → Fin 3 → ℝ :=
  fun j i => if j = k then grad j i + s.gradContrib x y z i else grad j i

/-! ## C5: isotropic Lee-Suto reduces to the spherical closed form -/

/-- **C5.** For a Lee-Suto kernel with `b = a` and `c = a` (so
`e_b² = e_c² = 0`), at every position with `r > 0` the value returned is
the spherical closed form `-v_h²·log(1 + r/r_h)/(r/r_h)`; and the general
triaxial branch, evaluated at `e_b² = e_c² = 0` with a norm-preserving
(orthogonal) rotation, coincides with the spherical fast-path branch at
every such position. -/
theorem leesuto_isotropic_reduces_to_spherical (s : LeeSutoNFW)
    (hb : s.b = s.a) (hc : s.c = s.a) (ha : s.a ≠ 0) (x y z : ℝ)
    (_hr : 0 < Real.sqrt (x*x + y*y + z*z)) :
    s.value x y z
      = -(s.v_h*s.v_h) * Real.log (1 + Real.sqrt (x*x + y*y + z*z)/s.r_h)
          / (Real.sqrt (x*x + y*y + z*z)/s.r_h) ∧
    (s.rotx x y z * s.rotx x y z + s.roty x y z * s.roty x y z
        + s.rotz x y z * s.rotz x y z = x*x + y*y + z*z →
      s.value_triaxial x y z = s.value_spherical x y z) := by
  have heb : s.e_b2 = 0 := by
    simp [LeeSutoNFW.e_b2, hb, div_self ha]
  have hec : s.e_c2 = 0 := by
    simp [LeeSutoNFW.e_c2, hc, div_self ha]
  have hsph : s.spherical = 1 := by
    simp [LeeSutoNFW.spherical, heb, hec]
  constructor
  · rw [LeeSutoNFW.value, if_pos hsph]
    simp only [LeeSutoNFW.value_spherical, LeeSutoNFW.v_h2]
  · intro hnorm
    simp only [LeeSutoNFW.value_triaxial, LeeSutoNFW.value_spherical, heb, hec,
      hnorm]
    ring_nf

/-- Witness for C5: isotropic parameters `v_h = r_h = a = b = c = 1`,
identity rotation, at `q = (3, 4, 0)`. -/
theorem leesuto_isotropic_reduces_to_spherical_witness :
    (mkLeeSutoNFW 1 1 1 1 1 1 0 0 0 1 0 0 0 1).value_triaxial 3 4 0
      = (mkLeeSutoNFW 1 1 1 1 1 1 0 0 0 1 0 0 0 1).value_spherical 3 4 0 := by
  have h := leesuto_isotropic_reduces_to_spherical
    (mkLeeSutoNFW 1 1 1 1 1 1 0 0 0 1 0 0 0 1) rfl rfl (by norm_num [mkLeeSutoNFW]) 3 4 0
    (Real.sqrt_pos.mpr (by norm_num))
  exact h.2 (by norm_num [mkLeeSutoNFW, LeeSutoNFW.rotx, LeeSutoNFW.roty,
    LeeSutoNFW.rotz])

/-! ## C10: the hard-coded gravitational constant is never read -/

/-- **C10.** The Lee-Suto NFW and Logarithmic constructors hard-code
`G = 4.49975332435e-12` (kpc/Myr/Msun) rather than taking it from the
caller, and two instances differing only in the stored gravitational
constant return identical values and gradient contributions at every
position: neither evaluation path reads `G`. -/
theorem leesuto_logarithmic_independent_of_G :
    (∀ v_h r_h a b c R11 R12 R13 R21 R22 R23 R31 R32 R33 : ℝ,
      (mkLeeSutoNFW v_h r_h a b c R11 R12 R13 R21 R22 R23 R31 R32 R33).G
        = 4.49975332435e-12) ∧
    (∀ v_c r_h q1 q2 q3 R11 R12 R13 R21 R22 R23 R31 R32 R33 : ℝ,
      (mkLogarithmicPot v_c r_h q1 q2 q3 R11 R12 R13 R21 R22 R23 R31 R32 R33).G
        = 4.49975332435e-12) ∧
    (∀ (s : LeeSutoNFW) (g x y z : ℝ),
      ({ s with G := g } : LeeSutoNFW).value x y z = s.value x y z ∧
      ({ s with G := g } : LeeSutoNFW).gradContrib x y z
        = s.gradContrib x y z) ∧
    (∀ (s : LogarithmicPot) (g x y z : ℝ),
      ({ s with G := g } : LogarithmicPot).value x y z = s.value x y z ∧
      ({ s with G := g } : LogarithmicPot).gradContrib x y z
        = s.gradContrib x y z) := by
  refine ⟨fun _ _ _ _ _ _ _ _ _ _ _ _ _ _ => rfl,
    fun _ _ _ _ _ _ _ _ _ _ _ _ _ _ => rfl, ?_, ?_⟩
  · intro s g x y z
    cases s
    exact ⟨rfl, rfl⟩
  · intro s g x y z
    cases s
    exact ⟨rfl, rfl⟩

/-! ## C8: gradient evaluation adds into its own column and leaves the
rest of the buffer alone -/

/-- A gradient routine `f` accumulates additively: applied to any prior
buffer and any row `k`, the new row-`k` entries are the old entries plus
a contribution that does not depend on the buffer, and every other entry
of the buffer is left unchanged. -/
def AccumulatesInto (f : (ℕ → Fin 3 → ℝ) → ℕ → (ℕ → Fin 3 → ℝ))
    (contrib : Fin 3 → ℝ) : Prop :=
  ∀ (grad : ℕ → Fin 3 → ℝ) (k : ℕ),
    (∀ i, f grad k k i = grad k i + contrib i) ∧
    (∀ j, j ≠ k → ∀ i, f grad k j i = grad j i)

/-- **C8.** Every built-in kernel's gradient routine adds its
contribution into the three entries of its point's column of the output
buffer (new entry = old entry + contribution, never assignment) and
leaves every other entry unchanged. -/
theorem gradient_accumulates_additively
    (s1 : Hernquist) (s2 : Jaffe) (s3 : MiyamotoNagai) (s4 : LeeSutoNFW)
    (s5 : LogarithmicPot) (s6 : Pal5NFW) (x y z : ℝ) :
    AccumulatesInto (s1.gradient x y z) (s1.gradContrib x y z) ∧
    AccumulatesInto (s2.gradient x y z) (s2.gradContrib x y z) ∧
    AccumulatesInto (s3.gradient x y z) (s3.gradContrib x y z) ∧
    AccumulatesInto (s4.gradient x y z) (s4.gradContrib x y z) ∧
    AccumulatesInto (s5.gradient x y z) (s5.gradContrib x y z) ∧
    AccumulatesInto (s6.gradient x y z) (s6.gradContrib x y z) := by
  refine ⟨?_, ?_, ?_, ?_, ?_, ?_⟩ <;>
    exact fun grad k =>
      ⟨fun i => by simp [Hernquist.gradient, Jaffe.gradient,
          MiyamotoNagai.gradient, LeeSutoNFW.gradient, LogarithmicPot.gradient,
          Pal5NFW.gradient],
        fun j hj i => by simp [Hernquist.gradient, Jaffe.gradient,
          MiyamotoNagai.gradient, LeeSutoNFW.gradient, LogarithmicPot.gradient,
          Pal5NFW.gradient, hj]⟩

/-- Witness for C8: the Hernquist kernel `⟨1,1,1⟩` at `q = (1,2,3)` on
the zero buffer, column `k = 0`: column 0 receives the contribution,
column 1 is untouched. -/
theorem gradient_accumulates_additively_witness :
    Hernquist.gradient ⟨1, 1, 1⟩ 1 2 3 (fun _ _ => 0) 0 0 0
      = (fun (_ : ℕ) (_ : Fin 3) => (0:ℝ)) 0 0
        + Hernquist.gradContrib ⟨1, 1, 1⟩ 1 2 3 0 ∧
    Hernquist.gradient ⟨1, 1, 1⟩ 1 2 3 (fun _ _ => 0) 0 1 0
      = (fun (_ : ℕ) (_ : Fin 3) => (0:ℝ)) 1 0 := by
  have h := (gradient_accumulates_additively ⟨1, 1, 1⟩ ⟨1, 1, 1⟩ ⟨1, 1, 1, 1⟩
    ⟨1, 1, 1, 1, 1, 1, 1, 1, 1, 1, 1, 1, 1, 1, 1⟩
    ⟨1, 1, 1, 1, 1, 1, 1, 1, 1, 1, 1, 1, 1, 1, 1⟩
    ⟨1, 1, 1⟩ 1 2 3).1 (fun _ _ => 0) 0
  exact ⟨h.1 0, h.2 1 (by decide) 0⟩

/-! ## C1: the Pal5 kernel's gradient is not the derivative of its value

The Pal5 `_value` sets `R = x² + y² + z²/qz²` (no square root) while
`_gradient` sets `R = sqrt(x² + y² + z²/qz²)`: the gradient is the exact
derivative of the potential with the square-rooted radius, not of the
value as coded.  We exhibit the mismatch at `q = (1,0,0)` with
`Rh = qz = 1` and `M` chosen so that `G·M = 1`. -/

/-- Pal5 kernel with `M = 1/G` (so `GM = 1`), `Rh = 1`, `qz = 1`. -/
def pal5Test : Pal5NFW := ⟨1 / 4.49975332435e-12, 1, 1⟩

/-- **C1 (refuting the claim on the code).** For the Pal5 axisymmetric
NFW kernel with `GM = 1`, `Rh = 1`, `qz = 1`, the partial derivative of
the coded `_value` along `x` at `q = (1,0,0)` is `2·log 2 - 1`, while
the coded `_gradient` returns `log 2 - 1/2` as the x-component there —
and these differ.  Hence the gradient is not the analytic spatial
derivative of the value. -/
theorem pal5_gradient_not_derivative_of_value :
    HasDerivAt (fun w : ℝ => pal5Test.value w 0 0) (2*Real.log 2 - 1) 1 ∧
    Pal5NFW.gradContrib pal5Test 1 0 0 0 = Real.log 2 - 1/2 ∧
    2*Real.log 2 - 1 ≠ Real.log 2 - 1/2 := by
  refine ⟨?_, ?_, ?_⟩
  · have hfun : (fun w : ℝ => pal5Test.value w 0 0)
        = fun w : ℝ => -(w*w)⁻¹ * Real.log (1 + w*w) := by
      funext w
      simp only [Pal5NFW.value, Pal5NFW.GM, Pal5NFW.G, Pal5NFW.qz2, pal5Test]
      norm_num
      ring
    have h1 : HasDerivAt (fun w : ℝ => w*w) 2 1 := by
      have h := (hasDerivAt_id (1:ℝ)).mul (hasDerivAt_id (1:ℝ))
      norm_num at h
      exact h
    have h2 : HasDerivAt (fun w : ℝ => (w*w)⁻¹) (-2) 1 := by
      simpa using h1.inv (by norm_num)
    have h3 : HasDerivAt (fun w : ℝ => -(w*w)⁻¹) 2 1 := by
      simpa using h2.neg
    have h4 : HasDerivAt (fun w : ℝ => 1 + w*w) 2 1 := by
      simpa using (hasDerivAt_const (1:ℝ) (1:ℝ)).add h1
    have h5 : HasDerivAt (fun w : ℝ => Real.log (1 + w*w)) 1 1 := by
      have := h4.log (by norm_num : (1:ℝ) + 1*1 ≠ 0)
      norm_num at this
      simpa using this
    have h6 := h3.mul h5
    rw [hfun]
    have : (2*Real.log 2 - 1)
        = 2 * Real.log (1 + 1*1) + (-((1:ℝ)*1)⁻¹) * 1 := by
      norm_num
      ring
    rw [this]
    simpa using h6
  · simp only [Pal5NFW.gradContrib, Pal5NFW.GM, Pal5NFW.G, Pal5NFW.qz2, pal5Test]
    norm_num
  · intro h
    have hlog := Real.log_two_gt_d9
    norm_num at hlog
    linarith

end
